import Mathlib

/-!
Shallow embedding of the MultiThreaded-Chat-Room server core: the `Message`
frame codec (message.hpp), the `Room` mediator and the `Session` outbound
write queue (chatRoom.cpp).  Bytes are modelled as `Nat` (ASCII codes), the
fixed 516-byte `data` buffer of `Message` as a `List Nat`, and C's `atoi`
as an executable function on byte lists.
-/

namespace ChatRoom

/-- ASCII whitespace as recognised by C `isspace`/`atoi`: space (32) and
the control characters 9..13. -/
def isSpaceByte (c : Nat) : Bool := c == 32 || (9 ≤ c && c ≤ 13)

/-- ASCII decimal digit byte. -/
def isDigitByte (c : Nat) : Bool := 48 ≤ c && c ≤ 57

/-- Accumulate the value of a maximal leading run of decimal digits,
exactly as `atoi`'s conversion loop does; stops at the first non-digit
byte (which includes the NUL terminator byte 0). -/
def digitsValue : List Nat → Nat → Nat
  | [], acc => acc
  | c :: rest, acc =>
      if isDigitByte c then digitsValue rest (acc * 10 + (c - 48)) else acc

/-- Model of C `atoi` on a byte list: skip leading whitespace, read an
optional sign, then a maximal run of decimal digits (empty run gives 0).
A NUL byte (0) is neither whitespace, sign, nor digit, so conversion
stops there just as it does at the terminator of the C string.  The
headers in this protocol are 4 bytes, so overflow cannot occur. -/
def atoiBytes (s : List Nat) : Int :=
  match s.dropWhile isSpaceByte with
  | 45 :: rest => -(digitsValue rest 0 : Int)
  | 43 :: rest => (digitsValue rest 0 : Int)
  | t => (digitsValue t 0 : Int)

/-- Decimal digit bytes of `n`, most significant first (fuel-driven so the
kernel can evaluate it). -/
def decDigitsAux : Nat → Nat → List Nat → List Nat
  | 0, n, acc => (48 + n % 10) :: acc
  | fuel + 1, n, acc =>
      if n < 10 then (48 + n) :: acc
      else decDigitsAux fuel (n / 10) ((48 + n % 10) :: acc)

/-- ASCII decimal representation of `n` (at least one digit). -/
def decDigits (n : Nat) : List Nat := decDigitsAux n n []

/-- The 4 header bytes produced by `sprintf("%4d", n)` followed by the
4-byte `memcpy` in `Message::encodeHeader`: the decimal digits of `n`,
right-justified in a field of width 4, padded with spaces (byte 32); the
`memcpy` keeps only the first 4 bytes. -/
def headerBytes (n : Nat) : List Nat :=
  (List.replicate (4 - (decDigits n).length) 32 ++ decDigits n).take 4

/-- The `Message` class of message.hpp: the raw 516-byte buffer
`data` (header region = first 4 bytes, body region after) and the private
`bodyLength_` field. -/
structure Message where
  data : List Nat
  bodyLength_ : Nat
deriving DecidableEq

/-- Model of `memcpy(dst + off, src, src.length)` on list-modelled
buffers: overwrite the region `[off, off + src.length)` of `dst`. -/
def writeBytes (dst : List Nat) (off : Nat) (src : List Nat) : List Nat :=
  dst.take off ++ src ++ dst.drop (off + src.length)

/-- `Message::encodeHeader`: format `bodyLength_` with `%4d` and copy the
4 bytes to the start of `data`. -/
def Message.encodeHeader (m : Message) : Message :=
  { m with data := writeBytes m.data 0 (headerBytes m.bodyLength_) }

/-- `Message::encodeBody`: copy `bodyLength_` bytes of the payload into
`data` just after the 4-byte header. -/
def Message.encodeBody (m : Message) (s : List Nat) : Message :=
  { m with data := writeBytes m.data 4 (s.take m.bodyLength_) }

/-- `Message::decodeHeader`: `atoi` the first 4 bytes of `data`; if the
value is negative or exceeds `maxBytes = 512`, set `bodyLength_` to 0 and
return `false`; otherwise store the value and return `true`.  The pair
is (return value, updated message). -/
def Message.decodeHeader (m : Message) : Bool × Message :=
  let v := atoiBytes (m.data.take 4)
  if v < 0 ∨ 512 < v then (false, { m with bodyLength_ := 0 })
  else (true, { m with bodyLength_ := v.toNat })

/-- `Message::getData`: the wire frame, header plus body. -/
def Message.getData (m : Message) : List Nat := m.data.take (4 + m.bodyLength_)

/-- `Message::getBody`: the body region of `data`. -/
def Message.getBody (m : Message) : List Nat := (m.data.drop 4).take m.bodyLength_

/-- `Message::getBodyLength`. -/
def Message.getBodyLength (m : Message) : Nat := m.bodyLength_

/-- `Message::setBodyLength`: throws `std::length_error` when the new
length exceeds `maxBytes = 512`, modelled as `none`. -/
def Message.setBodyLength (m : Message) (newLength : Nat) : Option Message :=
  if 512 < newLength then none else some { m with bodyLength_ := newLength }

/-- A fresh `Message` object; the C++ buffer is uninitialised, modelled
as all zero bytes (no operation proved about reads unwritten bytes). -/
def emptyMessage : Message := { data := List.replicate 516 0, bodyLength_ := 0 }

/-- `Message::setBody`: `setBodyLength`, then `encodeHeader`, then
`encodeBody` — the same steps the `Message(const std::string&)`
constructor performs. -/
def Message.setBody (m : Message) (body : List Nat) : Option Message :=
  (m.setBodyLength body.length).map fun m1 => (m1.encodeHeader).encodeBody body

/-- The `Message(const std::string&)` constructor: encode a payload into
a fresh message, failing (exception) when the payload exceeds 512 bytes. -/
def Message.ofString (s : List Nat) : Option Message := emptyMessage.setBody s

theorem headerBytes_length (n : Nat) : (headerBytes n).length = 4 := by
  simp only [headerBytes, List.length_take, List.length_append, List.length_replicate]
  omega

set_option maxRecDepth 4000 in
theorem atoi_headerBytes : ∀ n < 513, atoiBytes (headerBytes n) = (n : Int) := by decide

/-- Normal form of an encoded message: its buffer starts with the 4 header
bytes followed by the whole body; the bytes after that are never read. -/
theorem ofString_data (b : List Nat) (hb : b.length ≤ 512) :
    ∃ tail : List Nat,
      Message.ofString b = some ⟨(headerBytes b.length ++ b) ++ tail, b.length⟩ := by
  have hn : ¬ (512 < b.length) := by omega
  refine ⟨(headerBytes b.length ++ (List.replicate 516 (0 : Nat)).drop 4).drop
    (4 + b.length), ?_⟩
  simp only [Message.ofString, Message.setBody, Message.setBodyLength, emptyMessage,
    if_neg hn, Option.map_some']
  congr 1
  simp only [Message.encodeHeader, Message.encodeBody, writeBytes, List.take_zero,
    List.nil_append, Nat.zero_add, headerBytes_length, List.take_length]
  congr 1
  rw [List.take_left' (headerBytes_length b.length), List.append_assoc]

/-- Decoding a buffer that starts with a well-formed header for `n ≤ 512`
succeeds and stores `n`. -/
theorem decode_frame (n : Nat) (hn : n ≤ 512) (rest : List Nat) :
    (Message.mk (headerBytes n ++ rest) 0).decodeHeader
      = (true, ⟨headerBytes n ++ rest, n⟩) := by
  have hatoi := atoi_headerBytes n (by omega)
  have hcond : ¬ ((n : Int) < 0 ∨ 512 < (n : Int)) := by omega
  have htn : ((n : Int)).toNat = n := by omega
  simp only [Message.decodeHeader, List.take_left' (headerBytes_length n), hatoi,
    if_neg hcond, htn]

/-- C1: for every body `b` with `len(b) ≤ 512`, building a frame with the
`Message` constructor and then decoding the received frame bytes (with
whatever trailing buffer content) via `decodeHeader` followed by `getBody`
yields exactly `b`. -/
theorem roundTrip (b junk : List Nat) (hb : b.length ≤ 512) :
    ∃ m : Message, Message.ofString b = some m ∧
      ((Message.mk (m.getData ++ junk) 0).decodeHeader).1 = true ∧
      ((Message.mk (m.getData ++ junk) 0).decodeHeader).2.getBody = b := by
  obtain ⟨tail, hof⟩ := ofString_data b hb
  have hdata : (Message.mk ((headerBytes b.length ++ b) ++ tail) b.length).getData
      = headerBytes b.length ++ b := by
    simp only [Message.getData]
    exact List.take_left' (by simp [headerBytes_length])
  refine ⟨_, hof, ?_, ?_⟩
  · rw [hdata, List.append_assoc, decode_frame b.length hb]
  · rw [hdata, List.append_assoc, decode_frame b.length hb]
    simp only [Message.getBody]
    rw [List.drop_left' (headerBytes_length b.length), List.take_left]

/-- C1 witness: the 2-byte body "Hi" round-trips. -/
theorem roundTrip_witness :
    (([72, 105] : List Nat).length ≤ 512) ∧
    (∃ m : Message, Message.ofString [72, 105] = some m ∧
      ((Message.mk (m.getData ++ [0, 0]) 0).decodeHeader).1 = true ∧
      ((Message.mk (m.getData ++ [0, 0]) 0).decodeHeader).2.getBody = [72, 105]) :=
  ⟨by decide, roundTrip [72, 105] [0, 0] (by decide)⟩

/-- A receiver-side message whose buffer holds the 4 given header bytes
followed by 512 zero bytes. -/
def headerOnlyMsg (h : List Nat) : Message := ⟨h ++ List.replicate 512 0, 0⟩

/-- Modelled from the spec: "parses the 4 bytes as a decimal integer; fails
with HeaderError if the value is negative, non-numeric, or exceeds 512" —
a header is a valid decimal number in 0..512 when, after leading spaces,
it consists of one or more decimal digits whose value is at most 512. -/
def specNumericHeader (h : List Nat) : Bool :=
  let t := h.dropWhile (fun c => c == 32)
  !t.isEmpty && t.all isDigitByte && decide (digitsValue t 0 ≤ 512)

/-- C2 counterexample: the header "abcd" is non-numeric, yet `decodeHeader`
succeeds (with length 0), because `atoi` parses it as 0 — contradicting the
claim that a non-numeric header fails with `HeaderError`. -/
theorem decodeHeader_nonnumeric_succeeds :
    specNumericHeader [97, 98, 99, 100] = false ∧
    (headerOnlyMsg [97, 98, 99, 100]).decodeHeader.1 = true := by decide

/-- C2 (amended): `decodeHeader` succeeds exactly when the `atoi` value of
the 4 header bytes is between 0 and 512, and then stores that value;
"0000" succeeds with length 0; "9999" fails; the non-numeric header "abcd"
succeeds with length 0 (atoi yields 0 on it) rather than failing. -/
theorem decodeHeader_atoi_range :
    (∀ m : Message, (m.decodeHeader).1 = true ↔
        (0 ≤ atoiBytes (m.data.take 4) ∧ atoiBytes (m.data.take 4) ≤ 512)) ∧
    (∀ m : Message, (m.decodeHeader).1 = true →
        ((m.decodeHeader).2.getBodyLength : Int) = atoiBytes (m.data.take 4)) ∧
    ((headerOnlyMsg [48, 48, 48, 48]).decodeHeader.1 = true ∧
      (headerOnlyMsg [48, 48, 48, 48]).decodeHeader.2.getBodyLength = 0) ∧
    ((headerOnlyMsg [57, 57, 57, 57]).decodeHeader.1 = false) ∧
    ((headerOnlyMsg [97, 98, 99, 100]).decodeHeader.1 = true ∧
      (headerOnlyMsg [97, 98, 99, 100]).decodeHeader.2.getBodyLength = 0) := by
  refine ⟨?_, ?_, by decide, by decide, by decide⟩
  · intro m
    simp only [Message.decodeHeader]
    by_cases hc : atoiBytes (m.data.take 4) < 0 ∨ 512 < atoiBytes (m.data.take 4)
    · simp only [if_pos hc]
      constructor
      · intro h; exact absurd h (by simp)
      · intro h; omega
    · simp only [if_neg hc]
      constructor
      · intro _; omega
      · intro _; trivial
  · intro m
    simp only [Message.decodeHeader]
    by_cases hc : atoiBytes (m.data.take 4) < 0 ∨ 512 < atoiBytes (m.data.take 4)
    · simp [if_pos hc]
    · simp only [if_neg hc, Message.getBodyLength]
      intro _
      omega

/-- C2 witness: the header "0012" succeeds and stores the atoi value 12. -/
theorem decodeHeader_atoi_range_witness :
    ((headerOnlyMsg [48, 48, 49, 50]).decodeHeader.1 = true) ∧
    (((headerOnlyMsg [48, 48, 49, 50]).decodeHeader.2.getBodyLength : Int)
      = atoiBytes ((headerOnlyMsg [48, 48, 49, 50]).data.take 4)) :=
  ⟨by decide, decodeHeader_atoi_range.2.1 (headerOnlyMsg [48, 48, 49, 50]) (by decide)⟩

/-- C7: encoding fails (the `std::length_error` of `setBodyLength`) exactly
when the body exceeds 512 bytes; for a body of length at most 512 it
succeeds and the frame is the 4-byte decimal header followed by the body. -/
theorem encode_oversize :
    (∀ b : List Nat, 512 < b.length → Message.ofString b = none) ∧
    (∀ b : List Nat, b.length ≤ 512 →
        ∃ m, Message.ofString b = some m ∧ m.getData = headerBytes b.length ++ b) := by
  constructor
  · intro b hb
    simp only [Message.ofString, Message.setBody, Message.setBodyLength, if_pos hb,
      Option.map_none']
  · intro b hb
    obtain ⟨tail, hof⟩ := ofString_data b hb
    refine ⟨_, hof, ?_⟩
    simp only [Message.getData]
    exact List.take_left' (by simp [headerBytes_length])

/-- C7 witness: a 513-byte body is rejected; the 2-byte body "Hi" encodes. -/
theorem encode_oversize_witness :
    (512 < (List.replicate 513 (48 : Nat)).length ∧
      Message.ofString (List.replicate 513 48) = none) ∧
    (([72, 105] : List Nat).length ≤ 512 ∧
      ∃ m, Message.ofString [72, 105] = some m ∧
        m.getData = headerBytes ([72, 105] : List Nat).length ++ [72, 105]) :=
  ⟨⟨by rw [List.length_replicate]; omega,
    encode_oversize.1 (List.replicate 513 48) (by rw [List.length_replicate]; omega)⟩,
   ⟨by decide, encode_oversize.2 [72, 105] (by decide)⟩⟩

/-- Decimal digits of `n`, most significant first, written independently of
the codec's formatter (spec-side; fuel-driven division). -/
def specDigits : Nat → Nat → List Nat
  | 0, _ => []
  | fuel + 1, n => if n = 0 then [] else specDigits fuel (n / 10) ++ [48 + n % 10]

/-- Modelled from the spec: "HEADER(4 bytes, ASCII decimal, space-padded,
right-justified)" — the decimal digits of `n`, right-justified in 4 bytes,
padded on the left with spaces. -/
def specHeaderBytes (n : Nat) : List Nat :=
  let ds := if n = 0 then [48] else specDigits n n
  List.replicate (4 - ds.length) 32 ++ ds

set_option maxRecDepth 4000 in
theorem headerBytes_eq_spec : ∀ n < 513, headerBytes n = specHeaderBytes n := by decide

/-- The 13 ASCII bytes of "Hello, world!". -/
def helloBytes : List Nat := [72, 101, 108, 108, 111, 44, 32, 119, 111, 114, 108, 100, 33]

/-- C8: for every body length `n ≤ 512` the encoded header is the 4-byte
right-justified, space-padded ASCII decimal of `n`; the 13-byte body
"Hello, world!" yields the header "  13" and the 17-byte frame
"  13Hello, world!". -/
theorem header_format :
    (∀ n : Nat, n ≤ 512 → headerBytes n = specHeaderBytes n) ∧
    (∃ m, Message.ofString helloBytes = some m ∧
        m.getData = [32, 32, 49, 51] ++ helloBytes ∧
        m.getData.length = 17 ∧ m.getBodyLength = 13) := by
  constructor
  · intro n hn
    exact headerBytes_eq_spec n (by omega)
  · obtain ⟨tail, hof⟩ := ofString_data helloBytes (by decide)
    have hdata : (Message.mk ((headerBytes helloBytes.length ++ helloBytes) ++ tail)
        helloBytes.length).getData = headerBytes helloBytes.length ++ helloBytes := by
      simp only [Message.getData]
      exact List.take_left' (by simp [headerBytes_length])
    refine ⟨Message.mk ((headerBytes helloBytes.length ++ helloBytes) ++ tail)
      helloBytes.length, hof, ?_, ?_, rfl⟩
    · rw [hdata]; decide
    · rw [hdata]; decide

/-- C8 witness: length 13 is within bounds and its header matches the
spec-side format. -/
theorem header_format_witness :
    ((13 : Nat) ≤ 512) ∧ headerBytes 13 = specHeaderBytes 13 :=
  ⟨by decide, header_format.1 13 (by decide)⟩

/-- C9: whenever `decodeHeader` fails it stores body length 0, discarding
any previously held length. -/
theorem decodeHeader_fail_resets (m : Message) (h : (m.decodeHeader).1 = false) :
    (m.decodeHeader).2.getBodyLength = 0 := by
  simp only [Message.decodeHeader] at *
  by_cases hc : atoiBytes (m.data.take 4) < 0 ∨ 512 < atoiBytes (m.data.take 4)
  · simp [if_pos hc, Message.getBodyLength]
  · simp [if_neg hc] at h

/-- C9 witness: a message that held length 7 decodes the header "9999",
fails, and ends up with stored length 0. -/
theorem decodeHeader_fail_resets_witness :
    ((Message.mk ([57, 57, 57, 57] ++ List.replicate 512 0) 7).decodeHeader.1 = false) ∧
    ((Message.mk ([57, 57, 57, 57] ++ List.replicate 512 0) 7).decodeHeader.2.getBodyLength = 0) :=
  ⟨by decide,
   decodeHeader_fail_resets (Message.mk ([57, 57, 57, 57] ++ List.replicate 512 0) 7) (by decide)⟩

/-! Room: the mediator of chatRoom.cpp.  Participants are identified by
their `shared_ptr` value, modelled as a `Nat`; `std::set<ParticipantPtr>`
is modelled as a strictly sorted `List Nat`.  `participant->deliver(msg)`
calls are recorded as `(participant, message)` events in call order. -/

/-- Ordered insertion into a strictly sorted list, the effect of
`std::set::insert`: no change when the key is already present. -/
def setInsert (p : Nat) : List Nat → List Nat
  | [] => [p]
  | q :: rest =>
      if p < q then p :: q :: rest
      else if p = q then q :: rest
      else q :: setInsert p rest

/-- `std::set::erase`: remove the key if present, otherwise no effect. -/
def setErase (p : Nat) (l : List Nat) : List Nat := l.filter (fun q => q != p)

/-- The `Room` class: the membership set `participants` and the bounded
history `MessageQueue`. -/
structure Room where
  participants : List Nat
  MessageQueue : List Message

/-- `Room::join`: insert into the membership set, then deliver every
stored history message to the newcomer, oldest first.  Returns the new
room state and the `deliver` calls made. -/
def Room.join (r : Room) (p : Nat) : Room × List (Nat × Message) :=
  (⟨setInsert p r.participants, r.MessageQueue⟩, r.MessageQueue.map fun m => (p, m))

/-- `Room::leave`: erase from the membership set; no deliveries. -/
def Room.leave (r : Room) (p : Nat) : Room × List (Nat × Message) :=
  (⟨setErase p r.participants, r.MessageQueue⟩, [])

/-- `Room::deliver` (the broadcast): `push_back` the message onto the
history, `pop_front` when the size exceeds 50, then call `deliver` on
every participant other than the sender, in set order. -/
def Room.deliver (r : Room) (sender : Nat) (msg : Message) : Room × List (Nat × Message) :=
  let q1 := r.MessageQueue ++ [msg]
  let q2 := if 50 < q1.length then q1.tail else q1
  (⟨r.participants, q2⟩, (r.participants.filter (fun q => q != sender)).map fun q => (q, msg))

/-- Repeated broadcasts: fold `Room::deliver` over a list of
(sender, message) pairs, keeping only the room state. -/
def Room.broadcastList (r : Room) : List (Nat × Message) → Room
  | [] => r
  | x :: xs => ((r.deliver x.1 x.2).1).broadcastList xs

theorem broadcastList_queue : ∀ (xs : List (Nat × Message)) (r : Room),
    r.MessageQueue.length ≤ 50 →
    (r.broadcastList xs).MessageQueue
      = (r.MessageQueue ++ xs.map Prod.snd).drop
          (r.MessageQueue.length + xs.length - 50) := by
  intro xs
  induction xs with
  | nil =>
      intro r h
      simp only [Room.broadcastList, List.map_nil, List.append_nil, List.length_nil]
      have : r.MessageQueue.length + 0 - 50 = 0 := by omega
      rw [this, List.drop_zero]
  | cons x xs ih =>
      intro r h
      simp only [Room.broadcastList, Room.deliver]
      by_cases hL : r.MessageQueue.length < 50
      · have hnot : ¬ (50 < (r.MessageQueue ++ [x.2]).length) := by
          simp only [List.length_append, List.length_cons, List.length_nil]; omega
        rw [if_neg hnot]
        have hrec : ((Room.mk r.participants (r.MessageQueue ++ [x.2])).broadcastList
              xs).MessageQueue
            = List.drop ((r.MessageQueue ++ [x.2]).length + xs.length - 50)
                ((r.MessageQueue ++ [x.2]) ++ List.map Prod.snd xs) :=
          ih (Room.mk r.participants (r.MessageQueue ++ [x.2]))
            (by simp only [List.length_append, List.length_cons, List.length_nil]; omega)
        rw [hrec]
        simp only [List.map_cons, List.append_assoc, List.singleton_append,
          List.length_append, List.length_cons, List.length_nil]
        congr 1
        omega
      · have hlen : r.MessageQueue.length = 50 := by omega
        have hcond : 50 < (r.MessageQueue ++ [x.2]).length := by
          simp only [List.length_append, List.length_cons, List.length_nil]; omega
        rw [if_pos hcond]
        cases hq : r.MessageQueue with
        | nil => rw [hq] at hlen; simp at hlen
        | cons a q0 =>
            rw [hq] at hlen
            simp only [List.length_cons] at hlen
            simp only [List.cons_append, List.tail_cons, List.map_cons]
            have hlen0 : (q0 ++ [x.2]).length = 50 := by
              simp only [List.length_append, List.length_cons, List.length_nil]; omega
            have hrec : ((Room.mk r.participants (q0 ++ [x.2])).broadcastList
                  xs).MessageQueue
                = List.drop ((q0 ++ [x.2]).length + xs.length - 50)
                    ((q0 ++ [x.2]) ++ List.map Prod.snd xs) :=
              ih (Room.mk r.participants (q0 ++ [x.2])) (by rw [hlen0])
            rw [hrec, hlen0]
            simp only [List.append_assoc, List.singleton_append, List.length_cons]
            have h1 : 50 + xs.length - 50 = xs.length := by omega
            have h2 : q0.length + 1 + (xs.length + 1) - 50 = xs.length + 1 := by omega
            rw [h1, h2, List.drop_succ_cons]

/-- C3: from any state whose history is within the 50-message bound (an
invariant of every reachable room), broadcasting a sequence `xs` keeps the
bound; when at least 50 messages were broadcast the history is exactly
the last 50 of them, oldest first, and when at most 50 were broadcast
they all sit at the end of the history in broadcast order. -/
theorem history_sliding_window (r : Room) (xs : List (Nat × Message))
    (h : r.MessageQueue.length ≤ 50) :
    (r.broadcastList xs).MessageQueue.length ≤ 50 ∧
    (50 ≤ xs.length →
      (r.broadcastList xs).MessageQueue = (xs.map Prod.snd).drop (xs.length - 50)) ∧
    (xs.length ≤ 50 →
      List.IsSuffix (xs.map Prod.snd) (r.broadcastList xs).MessageQueue) := by
  have hq := broadcastList_queue xs r h
  refine ⟨?_, ?_, ?_⟩
  · rw [hq]
    simp only [List.length_drop, List.length_append, List.length_map]
    omega
  · intro h50
    rw [hq, List.drop_append_eq_append_drop]
    have hnil : r.MessageQueue.drop (r.MessageQueue.length + xs.length - 50) = [] := by
      apply List.drop_eq_nil_of_le
      omega
    rw [hnil, List.nil_append]
    congr 1
    omega
  · intro h50
    rw [hq, List.drop_append_eq_append_drop]
    have hz : r.MessageQueue.length + xs.length - 50 - r.MessageQueue.length = 0 := by
      omega
    rw [hz, List.drop_zero]
    exact ⟨_, rfl⟩

/-- C3 witness: one broadcast into an initially empty room. -/
theorem history_sliding_window_witness :
    ((Room.mk [] []).MessageQueue.length ≤ 50) ∧
    (((Room.mk [] []).broadcastList [(1, emptyMessage)]).MessageQueue.length ≤ 50 ∧
      (50 ≤ ([(1, emptyMessage)] : List (Nat × Message)).length →
        ((Room.mk [] []).broadcastList [(1, emptyMessage)]).MessageQueue
          = (([(1, emptyMessage)] : List (Nat × Message)).map Prod.snd).drop
              (([(1, emptyMessage)] : List (Nat × Message)).length - 50)) ∧
      (([(1, emptyMessage)] : List (Nat × Message)).length ≤ 50 →
        List.IsSuffix (([(1, emptyMessage)] : List (Nat × Message)).map Prod.snd)
          ((Room.mk [] []).broadcastList [(1, emptyMessage)]).MessageQueue)) :=
  ⟨by simp, history_sliding_window (Room.mk [] []) [(1, emptyMessage)] (by simp)⟩

/-- C4: a broadcast by a member delivers the frame exactly once to every
member other than the sender, delivers nothing else, and never delivers
back to the sender. -/
theorem broadcast_no_self_echo (r : Room) (sender : Nat) (msg : Message)
    (hs : sender ∈ r.participants) (hnd : r.participants.Pairwise (· < ·)) :
    (∀ p m', (p, m') ∈ (r.deliver sender msg).2 ↔
        (p ∈ r.participants ∧ p ≠ sender ∧ m' = msg)) ∧
    (r.deliver sender msg).2.Nodup ∧
    (∀ m', (sender, m') ∉ (r.deliver sender msg).2) := by
  have hnodup : r.participants.Nodup := hnd.imp fun hlt => Nat.ne_of_lt hlt
  have hmem : ∀ p m', (p, m') ∈ (r.deliver sender msg).2 ↔
      (p ∈ r.participants ∧ p ≠ sender ∧ m' = msg) := by
    intro p m'
    simp only [Room.deliver, List.mem_map, List.mem_filter, bne_iff_ne, ne_eq,
      Prod.mk.injEq]
    constructor
    · rintro ⟨q, ⟨hq, hqs⟩, hpq, hm⟩
      exact ⟨hpq ▸ hq, hpq ▸ hqs, hm.symm⟩
    · rintro ⟨hp, hps, hm⟩
      exact ⟨p, ⟨hp, hps⟩, rfl, hm.symm⟩
  refine ⟨hmem, ?_, ?_⟩
  · exact (hnodup.filter _).map fun a b hab => by
      simpa using congrArg Prod.fst hab
  · intro m' hm'
    exact ((hmem sender m').1 hm').2.1 rfl

/-- C4 witness: in the room with members {1, 2}, a broadcast by 1 delivers
exactly to 2. -/
theorem broadcast_no_self_echo_witness :
    ((1 : Nat) ∈ ([1, 2] : List Nat) ∧ ([1, 2] : List Nat).Pairwise (· < ·)) ∧
    ((∀ p m', (p, m') ∈ ((Room.mk [1, 2] []).deliver 1 emptyMessage).2 ↔
        (p ∈ (Room.mk [1, 2] []).participants ∧ p ≠ 1 ∧ m' = emptyMessage)) ∧
      ((Room.mk [1, 2] []).deliver 1 emptyMessage).2.Nodup ∧
      (∀ m', (1, m') ∉ ((Room.mk [1, 2] []).deliver 1 emptyMessage).2)) :=
  ⟨⟨by decide, by decide⟩,
   broadcast_no_self_echo (Room.mk [1, 2] []) 1 emptyMessage (by decide) (by decide)⟩

/-- The operations a Room exposes, for sequencing histories of calls. -/
inductive Op where
  | join (p : Nat)
  | leave (p : Nat)
  | broadcast (sender : Nat) (msg : Message)

/-- One Room call and the `deliver` events it produces. -/
def Room.step (r : Room) : Op → Room × List (Nat × Message)
  | .join p => r.join p
  | .leave p => r.leave p
  | .broadcast s m => r.deliver s m

/-- A sequence of Room calls; events are concatenated in call order. -/
def Room.run (r : Room) : List Op → Room × List (Nat × Message)
  | [] => (r, [])
  | op :: ops =>
      let x := r.step op
      let y := x.1.run ops
      (y.1, x.2 ++ y.2)

theorem mem_setInsert_self (p : Nat) : ∀ l : List Nat, p ∈ setInsert p l := by
  intro l
  induction l with
  | nil => simp [setInsert]
  | cons q rest ih =>
      simp only [setInsert]
      by_cases h1 : p < q
      · simp [h1]
      · by_cases h2 : p = q
        · simp [h1, h2]
        · simp [h1, h2, ih]

/-- C5: joining a room whose history is `[m1..mk]` (k ≤ 50) adds the
participant to the membership, and in any continuation the events are the
replay `deliver(m1) ... deliver(mk)` to the newcomer, in order, followed by
whatever the later operations produce. -/
theorem join_replay (r : Room) (p : Nat) (ops : List Op)
    (hk : r.MessageQueue.length ≤ 50) :
    p ∈ (r.join p).1.participants ∧
    (r.run (Op.join p :: ops)).2
      = (r.MessageQueue.map fun m => (p, m)) ++ ((r.join p).1.run ops).2 := by
  exact ⟨mem_setInsert_self p r.participants, rfl⟩

/-- C5 witness: joining a one-message room with no further operations. -/
theorem join_replay_witness :
    ((Room.mk [1] [emptyMessage]).MessageQueue.length ≤ 50) ∧
    ((2 : Nat) ∈ ((Room.mk [1] [emptyMessage]).join 2).1.participants ∧
      ((Room.mk [1] [emptyMessage]).run [Op.join 2]).2
        = ((Room.mk [1] [emptyMessage]).MessageQueue.map fun m => (2, m))
            ++ (((Room.mk [1] [emptyMessage]).join 2).1.run []).2) :=
  ⟨by simp, join_replay (Room.mk [1] [emptyMessage]) 2 [] (by simp)⟩

theorem setInsert_eq_of_mem : ∀ l : List Nat, l.Pairwise (· < ·) → ∀ p ∈ l,
    setInsert p l = l := by
  intro l
  induction l with
  | nil => intro _ p hp; simp at hp
  | cons q rest ih =>
      intro hsort p hp
      simp only [setInsert]
      rcases List.mem_cons.mp hp with hpq | hpr
      · simp [hpq]
      · have hq_lt : q < p := (List.pairwise_cons.mp hsort).1 p hpr
        have h1 : ¬ p < q := by omega
        have h2 : ¬ p = q := by omega
        rw [if_neg h1, if_neg h2, ih (List.pairwise_cons.mp hsort).2 p hpr]

/-- C10: joining again while already a member leaves the membership set
unchanged — the participant still appears exactly once — yet the entire
current history is replayed to them once more, one `deliver` per stored
message, in order. -/
theorem rejoin_replays_history (r : Room) (p : Nat)
    (hmem : p ∈ r.participants) (hsort : r.participants.Pairwise (· < ·)) :
    (r.join p).1.participants = r.participants ∧
    (r.join p).1.participants.count p = 1 ∧
    (r.join p).2 = r.MessageQueue.map fun m => (p, m) := by
  have heq : setInsert p r.participants = r.participants :=
    setInsert_eq_of_mem r.participants hsort p hmem
  have hnodup : r.participants.Nodup := hsort.imp fun hlt => Nat.ne_of_lt hlt
  refine ⟨?_, ?_, rfl⟩
  · simp only [Room.join, heq]
  · simp only [Room.join, heq]
    exact List.count_eq_one_of_mem hnodup hmem

/-- C10 witness: participant 5 rejoins the room with members {2, 5} and a
one-message history. -/
theorem rejoin_replays_history_witness :
    ((5 : Nat) ∈ ([2, 5] : List Nat) ∧ ([2, 5] : List Nat).Pairwise (· < ·)) ∧
    (((Room.mk [2, 5] [emptyMessage]).join 5).1.participants
        = (Room.mk [2, 5] [emptyMessage]).participants ∧
      ((Room.mk [2, 5] [emptyMessage]).join 5).1.participants.count 5 = 1 ∧
      ((Room.mk [2, 5] [emptyMessage]).join 5).2
        = (Room.mk [2, 5] [emptyMessage]).MessageQueue.map fun m => (5, m)) :=
  ⟨⟨by decide, by decide⟩,
   rejoin_replays_history (Room.mk [2, 5] [emptyMessage]) 5 (by decide) (by decide)⟩

/-! Session: the outbound write queue of chatRoom.cpp.  `transmitted` is
the byte stream the transport has observed; in the single-threaded event
loop a queued write completes before the next one starts, so a completion
appends the front frame's bytes and pops it. -/

/-- The bytes `Session::async_write` hands to the transport for a message:
`Message::header + getBodyLength()` bytes of `data`. -/
def frameBytes (m : Message) : List Nat := m.data.take (4 + m.bodyLength_)

/-- The `Session` state the write machinery uses: the outbound FIFO
`outgoingMessages` and the byte stream the transport has observed. -/
structure Session where
  outgoingMessages : List Message
  transmitted : List Nat

/-- `Session::deliver`: `push_back` the frame; the returned flag records
whether `async_write()` was invoked, which the code does exactly when the
queue length has just become 1. -/
def Session.deliver (s : Session) (m : Message) : Session × Bool :=
  let q := s.outgoingMessages ++ [m]
  (⟨q, s.transmitted⟩, q.length == 1)

/-- The completion handler of `Session::async_write` (success path): the
front frame's bytes have reached the transport; `pop_front` it, and the
handler chains the next write when the queue is non-empty. -/
def Session.writeComplete (s : Session) : Session :=
  match s.outgoingMessages with
  | [] => s
  | m :: rest => ⟨rest, s.transmitted ++ frameBytes m⟩

/-- C6: `deliver` appends to the outbound FIFO and starts a write cycle
exactly when the queue length becomes 1 (the queue was empty just before);
with `deliver` called for F1, F2, F3 before any write completes, only the
first call starts a write, and draining the queue puts the frames' bytes
on the transport in exactly the order F1, F2, F3. -/
theorem deliver_write_order :
    (∀ (s : Session) (m : Message),
        ((s.deliver m).1.outgoingMessages = s.outgoingMessages ++ [m] ∧
          ((s.deliver m).2 = true ↔ s.outgoingMessages = []))) ∧
    (∀ (t : List Nat) (F1 F2 F3 : Message),
        ((Session.mk [] t).deliver F1).2 = true ∧
        ((((Session.mk [] t).deliver F1).1).deliver F2).2 = false ∧
        ((((((Session.mk [] t).deliver F1).1).deliver F2).1).deliver F3).2 = false ∧
        ((((((Session.mk [] t).deliver F1).1).deliver F2).1).deliver F3).1.outgoingMessages
          = [F1, F2, F3] ∧
        (((((((Session.mk [] t).deliver F1).1).deliver F2).1).deliver
            F3).1.writeComplete.writeComplete.writeComplete).transmitted
          = t ++ frameBytes F1 ++ frameBytes F2 ++ frameBytes F3) := by
  constructor
  · intro s m
    refine ⟨rfl, ?_⟩
    simp only [Session.deliver, List.length_append, List.length_cons, List.length_nil,
      beq_iff_eq]
    constructor
    · intro h
      exact List.eq_nil_of_length_eq_zero (by omega)
    · intro h
      rw [h]; rfl
  · intro t F1 F2 F3
    refine ⟨rfl, rfl, rfl, rfl, ?_⟩
    simp [Session.deliver, Session.writeComplete, List.append_assoc]

end ChatRoom
